import Mathlib

/-!
Shallow embedding of `khscraper.py` (khinsider scraping tool).

The source is a linear scraping pipeline: parse an album page's track table
into records, then sequentially download covers and tracks.  The definitions
below translate the pure decision logic of the source functions:

* header post-processing of `KHAlbum.__get_songlist_content` (lines 359-364),
* `KHAlbum.get_available_formats` (lines 377-387),
* link selection of `KHSong.download` (lines 281-292), including an exact
  model of `os.path.splitext`,
* the record-building loop of `KHAlbum.get_songlist` (lines 402-425),
* the validation / cover-loop / track-loop structure of `KHAlbum.download`
  (lines 460-520), modelled as the trace of download events it performs,
* the progress-bar accounting of `KHFile.__update_progress_bar` and
  `KHFile.download_file` (lines 125-175).

Network transfers themselves are opaque: a download is recorded as an event
(for the orchestrator) or as the returned link (for link resolution), which
is exactly the information the specification's claims are about.
-/

set_option autoImplicit false

namespace Khscraper

/-! ### Python-level helpers -/

/-- Python truthiness of an optional integer argument: `None` and `0` are
falsy, every other integer is truthy.  The source guards the `start`/`end`
logic with bare `if start:` / `if end:` tests. -/
def truthy : Option Int → Bool
  | none => false
  | some v => v != 0

/-- Python `list.index(a)`: index of the first occurrence of `a`, `none`
standing for the `ValueError` CPython raises when `a` is absent. -/
def pyIndex (a : String) : List String → Option Nat
  | [] => none
  | x :: xs => if x = a then some 0 else (pyIndex a xs).map (· + 1)

/-- Python `list.insert(i, a)`: insert `a` before position `i` (appending
when `i` is past the end, exactly as CPython clamps). -/
def pyInsert (l : List String) (i : Nat) (a : String) : List String :=
  l.take i ++ a :: l.drop i

/-- Python `str.startswith(pre)`. -/
def pyStartsWith (s pre : String) : Bool :=
  pre.data.isPrefixOf s.data

/-- Python `str.lower()` (the site's labels are ASCII). -/
def pyLower (s : String) : String :=
  ⟨s.data.map Char.toLower⟩

/-- Python `str.upper()` (the site's format names are ASCII). -/
def pyUpper (s : String) : String :=
  ⟨s.data.map Char.toUpper⟩

/-- Python `str.rfind(c)`: index of the last occurrence of the character,
`none` standing for `-1`. -/
def rfindChar (c : Char) : List Char → Option Nat
  | [] => none
  | x :: xs =>
    match rfindChar c xs with
    | some i => some (i + 1)
    | none => if x = c then some 0 else none

/-- The extension part of `os.path.splitext` (posix rules, including its dot):
split at the last `'.'` of the final path component, unless that component
consists only of leading dots up to the split point (so `.bashrc` has no
extension).  Mirrors CPython `genericpath._splitext`. -/
def splitextExt (p : List Char) : List Char :=
  match rfindChar '.' p with
  | none => []
  | some sepIdx =>
    let fnIdx : Nat :=
      match rfindChar '/' p with
      | none => 0
      | some d => d + 1
    if (List.range' fnIdx (sepIdx - fnIdx)).any (fun j => p.getD j '.' != '.') then
      p.drop sepIdx
    else
      []

/-- `os.path.splitext(link)[1][1:]`: the file-extension suffix without its
dot, as the source compares it against the requested format. -/
def extAfterDot (link : String) : String :=
  ⟨(splitextExt link.data).drop 1⟩

/-! ### Header processing (`KHAlbum.__get_songlist_content`, lines 359-360)

`headers.insert(headers.index('Song Name')+1, 'Duration')`: a synthetic
`"Duration"` header is inserted right after `"Song Name"`; `list.index`
raises `ValueError` during `KHAlbum.__init__` when no header cell reads
`"Song Name"`. -/

def processHeaders (headers : List String) : Except String (List String) :=
  match pyIndex "Song Name" headers with
  | none => .error "ValueError: Song Name is not in list"
  | some i => .ok (pyInsert headers (i + 1) "Duration")

/-! ### Available formats (`KHAlbum.get_available_formats`, lines 386-387)

`self.headers[self.headers.index('Duration')+1:-1]`, lowercased: the slice
starts right after `"Duration"` and stops before the last column. -/

def get_available_formats (headers : List String) : Except String (List String) :=
  match pyIndex "Duration" headers with
  | none => .error "ValueError: Duration is not in list"
  | some i => .ok (((headers.drop (i + 1)).dropLast).map pyLower)

/-! ### Link selection of `KHSong.download` (lines 281-292)

The loop returns (and downloads) the first candidate link whose extension
suffix equals `fmt` under Python `==` (case-sensitive), and otherwise raises
`ValueError` mentioning `fmt.upper()` and the song's display name. -/

def KHSong.download (links : List String) (fmt : String) (songName : String) :
    Except String String :=
  match links.find? (fun link => extAfterDot link == fmt) with
  | some link => .ok link
  | none => .error (pyUpper fmt ++ " format not found for " ++ songName ++ " song")

/-! ### Track records (`KHAlbum.get_songlist`, lines 402-425) -/

/-- One `tr` row of the songlist table: the `href` of its first anchor
(`row.find('a')`, `none` when the row has no anchor) and the text of its
`td` cells in order. -/
structure Row where
  anchorHref : Option String
  cells : List String
  deriving Repr, DecidableEq

/-- A `KHSong`: its resolved URL and its ordered attribute dictionary. -/
structure Song where
  url : String
  attr : List (String × String)
  deriving Repr, DecidableEq

/-- Python `OrderedDict` assignment `d[k] = v`: overwrite in place when the
key exists, append otherwise. -/
def odSet (d : List (String × String)) (k v : String) : List (String × String) :=
  if d.any (fun p => p.1 == k) then
    d.map (fun p => if p.1 == k then (k, v) else p)
  else
    d ++ [(k, v)]

/-- The attribute loop of `get_songlist` (lines 418-421): for each header at
its index, skip empty headers, otherwise `attr[header.lower()] = cells[index]`;
a missing cell is CPython's `IndexError`. -/
def buildAttr (cells : List String) :
    List String → Nat → List (String × String) → Except String (List (String × String))
  | [], _, acc => .ok acc
  | h :: hs, i, acc =>
    if h = "" then
      buildAttr cells hs (i + 1) acc
    else
      match cells.get? i with
      | none => .error "IndexError: list index out of range"
      | some c => buildAttr cells hs (i + 1) (odSet acc (pyLower h) c)

/-- URL prefix required by `KHSong.__init__` (line 232). -/
def songUrlPre : String := "https://downloads.khinsider.com/game-soundtracks/album/"

/-- One row of `get_songlist` (lines 414-423): take the first anchor's href
(`row.find('a')['href']` raises `TypeError` when there is no anchor), build
the attribute dictionary from the non-empty headers, and construct a
`KHSong` from the resolved URL; `KHSong.__init__` rejects URLs outside the
album prefix.  `joinUrl` stands for `urljoin(self.url, requote_uri(href))`,
the URL resolver the source applies to the raw href. -/
def mkSong (joinUrl : String → String) (headers : List String) (row : Row) :
    Except String Song :=
  match row.anchorHref with
  | none => .error "TypeError: NoneType object is not subscriptable"
  | some href => do
    let attr ← buildAttr row.cells headers 0 []
    let url := joinUrl href
    if pyStartsWith url songUrlPre then
      .ok ⟨url, attr⟩
    else
      .error "ValueError: not a valid KHinsider song URL"

/-- Sequential list construction with fail-fast errors, as the Python loop
appends one song per row and any raise aborts the whole call. -/
def mapExcept {α β ε : Type} (f : α → Except ε β) : List α → Except ε (List β)
  | [] => .ok []
  | x :: xs => do
    let y ← f x
    let ys ← mapExcept f xs
    pure (y :: ys)

/-- `KHAlbum.get_songlist` (lines 411-425): one `Song` per table row strictly
between the header row and the footer row (`self.songlist('tr')[1:-1]`). -/
def get_songlist (joinUrl : String → String) (headers : List String) (rows : List Row) :
    Except String (List Song) :=
  mapExcept (mkSong joinUrl headers) ((rows.drop 1).dropLast)

/-! ### The download orchestrator (`KHAlbum.download`, lines 460-520)

The orchestrator is modelled as the trace of download events it performs.
Each `Event.cover i total` is one cover transfer with its printed
`[i/total]` progress, each `Event.track pos denom` one track transfer of the
track at 1-based position `pos` with printed denominator `denom`. -/

inductive Event where
  | cover (i : Nat) (total : Nat)
  | track (pos : Nat) (denom : Int)
  deriving Repr, DecidableEq

inductive DLError where
  | invalidDir
  | invalidStart (v : Int)
  | invalidEnd (v : Int)
  | startAboveEnd (s e : Int)
  deriving Repr, DecidableEq

/-- Range errors are the start/end validation errors of `KHAlbum.download`
(lines 489-496), as opposed to the output-directory error (line 486). -/
def DLError.isRangeErr : DLError → Bool
  | .invalidDir => false
  | .invalidStart _ => true
  | .invalidEnd _ => true
  | .startAboveEnd _ _ => true

def Event.isTrack : Event → Bool
  | .track _ _ => true
  | .cover _ _ => false

/-- The 1-based position of a track event. -/
def posOfEvent : Event → Option Nat
  | .track p _ => some p
  | .cover _ _ => none

def trackPositions (evs : List Event) : List Nat :=
  evs.filterMap posOfEvent

def trackEvents (evs : List Event) : List Event :=
  evs.filter Event.isTrack

/-- The cover loop of `KHAlbum.download` (lines 499-502): every cover is
downloaded, in order, with `[index+1/len(covers)]` progress. -/
def coverEvents (numCovers : Nat) : List Event :=
  (List.range numCovers).map (fun i => Event.cover (i + 1) numCovers)

/-- The track loop of `KHAlbum.download` (lines 505-518) over the 0-based
indices of the songlist: `continue` when `start` is truthy and
`index+1 < start`, `break` when `end` is truthy and `index+1 > end`,
otherwise download track `index+1`, printing denominator `end` when `end` is
truthy and the total count otherwise. -/
def trackLoop (start stop : Option Int) (total : Nat) : List Nat → List Event
  | [] => []
  | idx :: rest =>
    if truthy start ∧ (idx : Int) + 1 < start.getD 0 then
      trackLoop start stop total rest
    else if truthy stop ∧ (idx : Int) + 1 > stop.getD 0 then
      []
    else
      Event.track (idx + 1) (if truthy stop then stop.getD 0 else (total : Int)) ::
        trackLoop start stop total rest

/-- `KHAlbum.download` (lines 460-520).  `outputIsDir` is the result of
`os.path.isdir(output)`, `numCovers` the length of `get_covers()`,
`numSongs` the length of `get_songlist()` (both computed from the already
fetched album page, with no network activity).  Validation happens before
any transfer; an error therefore carries an empty event trace.  Transfers
themselves are assumed to succeed: the claims under study are about which
transfers are attempted and in which order. -/
def KHAlbum.download (outputIsDir : Bool) (numCovers numSongs : Nat)
    (start stop : Option Int) (dlcovers : Bool) : Except DLError (List Event) :=
  if !outputIsDir then
    .error .invalidDir
  else if truthy start ∧ (start.getD 0 < 0 ∨ start.getD 0 > (numSongs : Int)) then
    .error (.invalidStart (start.getD 0))
  else if truthy stop ∧ (stop.getD 0 < 0 ∨ stop.getD 0 > (numSongs : Int)) then
    .error (.invalidEnd (stop.getD 0))
  else if truthy start ∧ truthy stop ∧ start.getD 0 > stop.getD 0 then
    .error (.startAboveEnd (start.getD 0) (stop.getD 0))
  else
    .ok ((if dlcovers then coverEvents numCovers else []) ++
      trackLoop start stop numSongs (List.range numSongs))

/-- The window of the specification: a present bound constrains the 1-based
position, an unset bound is unbounded.  Stated from the spec's words, to be
compared with the code's `trackLoop`. -/
def specWindow (start stop : Option Int) (p : Nat) : Bool :=
  (match start with
   | none => true
   | some v => decide (v ≤ (p : Int))) &&
  (match stop with
   | none => true
   | some v => decide ((p : Int) ≤ v))

/-- The window as the code tests it, with Python truthiness: a falsy bound
(unset or zero) is unbounded. -/
def inWindow (start stop : Option Int) (p : Nat) : Bool :=
  (!truthy start || decide (start.getD 0 ≤ (p : Int))) &&
  (!truthy stop || decide ((p : Int) ≤ stop.getD 0))

/-! ### Progress accounting (`KHFile`, lines 125-175)

`download_file` iterates `resp.iter_content(chunk_size)` — for a body of
`totalSize` bytes that is `ceil(totalSize / chunkSize)` chunks — calling
`__update_progress_bar(index, chunk_size, file_size)` on each 0-based chunk
index and once more with `index+1` after the loop.  The progress bar update
reports `count * block_size` while below the total and completes the bar at
`max_value = total_size` otherwise (`DataTransferBar.finish`). -/

/-- The byte count one `__update_progress_bar(count, blockSize, totalSize)`
call makes the bar display. -/
def reportOfCount (count blockSize totalSize : Nat) : Nat :=
  if count * blockSize < totalSize then count * blockSize else totalSize

/-- Number of chunks `iter_content(chunkSize)` yields for a body of
`totalSize` bytes: all chunks are full except a shorter final one. -/
def numChunks (totalSize chunkSize : Nat) : Nat :=
  (totalSize + chunkSize - 1) / chunkSize

/-- The sequence of byte counts the progress bar displays over one
`download_file` call: one in-loop report per chunk, then the closing report
(the Python `index` variable is still `0` when the body was empty). -/
def progressReports (totalSize chunkSize : Nat) : List Nat :=
  ((List.range (numChunks totalSize chunkSize)).map
      (fun i => reportOfCount i chunkSize totalSize)) ++
    [reportOfCount ((numChunks totalSize chunkSize - 1) + 1) chunkSize totalSize]

/-! ## Helper lemmas -/

lemma pyIndex_exists_of_mem {a : String} {l : List String} (h : a ∈ l) :
    ∃ i, pyIndex a l = some i := by
  induction l with
  | nil => cases h
  | cons x xs ih =>
    by_cases hx : x = a
    · exact ⟨0, by simp [pyIndex, hx]⟩
    · rcases List.mem_cons.mp h with h' | h'
      · exact absurd h'.symm hx
      · obtain ⟨i, hi⟩ := ih h'
        exact ⟨i + 1, by simp [pyIndex, hx, hi]⟩

lemma pyIndex_eq_none_of_not_mem {a : String} {l : List String} (h : a ∉ l) :
    pyIndex a l = none := by
  induction l with
  | nil => rfl
  | cons x xs ih =>
    have hx : ¬x = a := fun hxa => h (by simp [hxa])
    have hxs : a ∉ xs := fun hm => h (by simp [hm])
    simp [pyIndex, hx, ih hxs]

lemma pyIndex_some_split {a : String} {l : List String} {i : Nat}
    (h : pyIndex a l = some i) :
    ∃ pre suf, l = pre ++ a :: suf ∧ pre.length = i := by
  induction l generalizing i with
  | nil => simp [pyIndex] at h
  | cons x xs ih =>
    by_cases hx : x = a
    · simp [pyIndex, hx] at h
      exact ⟨[], xs, by simp [hx], by simp [← h]⟩
    · simp [pyIndex, hx] at h
      obtain ⟨j, hj, hji⟩ := h
      obtain ⟨pre, suf, hsplit, hlen⟩ := ih hj
      exact ⟨x :: pre, suf, by simp [hsplit], by simp [hlen, hji]⟩

lemma take_append_cons_len {α : Type} (pre suf : List α) (a : α) :
    (pre ++ a :: suf).take (pre.length + 1) = pre ++ [a] := by
  induction pre with
  | nil => simp
  | cons x xs ih => simp [List.take, ih]

lemma drop_append_cons_len {α : Type} (pre suf : List α) (a : α) :
    (pre ++ a :: suf).drop (pre.length + 1) = suf := by
  induction pre with
  | nil => simp
  | cons x xs ih => simp [List.drop, ih]

lemma mem_pyInsert_self (l : List String) (i : Nat) (a : String) :
    a ∈ pyInsert l i a := by
  simp [pyInsert]

lemma mem_pyInsert_of_mem {x : String} {l : List String} (i : Nat) (a : String)
    (h : x ∈ l) : x ∈ pyInsert l i a := by
  unfold pyInsert
  rcases (List.mem_append.mp (by rw [List.take_append_drop i l]; exact h)) with h' | h'
  · exact List.mem_append.mpr (.inl h')
  · exact List.mem_append.mpr (.inr (List.mem_cons_of_mem a h'))

/-! ## Claim theorems -/

/-- Claim C3 (confirmed): for every header-cell list containing the label
"Song Name", the post-processed header list has "Duration" immediately
following "Song Name", its length is the original length plus one, and all
other labels keep their relative order (the list around the insertion point
is unchanged). -/
theorem processHeaders_duration_after_song_name (hs : List String)
    (h : "Song Name" ∈ hs) :
    ∃ pre suf,
      hs = pre ++ "Song Name" :: suf ∧
      processHeaders hs = .ok (pre ++ "Song Name" :: "Duration" :: suf) ∧
      (pre ++ "Song Name" :: "Duration" :: suf).length = hs.length + 1 := by
  obtain ⟨i, hi⟩ := pyIndex_exists_of_mem h
  obtain ⟨pre, suf, hsplit, hlen⟩ := pyIndex_some_split hi
  subst hlen
  refine ⟨pre, suf, hsplit, ?_, ?_⟩
  · subst hsplit
    simp only [processHeaders, hi, pyInsert]
    rw [take_append_cons_len, drop_append_cons_len]
    simp
  · subst hsplit
    simp only [List.length_append, List.length_cons]
    omega

/-- Witness for C3 at a concrete header row. -/
theorem processHeaders_duration_after_song_name_witness :
    ∃ pre suf,
      (["#", "Song Name", "MP3"] : List String) = pre ++ "Song Name" :: suf ∧
      processHeaders ["#", "Song Name", "MP3"] =
        .ok (pre ++ "Song Name" :: "Duration" :: suf) ∧
      (pre ++ "Song Name" :: "Duration" :: suf).length =
        (["#", "Song Name", "MP3"] : List String).length + 1 :=
  processHeaders_duration_after_song_name ["#", "Song Name", "MP3"] (by decide)

/-- Claim C10 (confirmed): a header row with no "Song Name" cell makes the
construction fail (its `list.index` call raises), and any successfully
processed header list contains both "Song Name" and "Duration". -/
theorem khalbum_header_requires_song_name (hs : List String) :
    ("Song Name" ∉ hs → ∃ msg, processHeaders hs = .error msg) ∧
    (∀ hs', processHeaders hs = .ok hs' →
      "Song Name" ∈ hs' ∧ "Duration" ∈ hs') := by
  constructor
  · intro h
    exact ⟨_, by unfold processHeaders; rw [pyIndex_eq_none_of_not_mem h]⟩
  · intro hs' hok
    cases hidx : pyIndex "Song Name" hs with
    | none => simp [processHeaders, hidx] at hok
    | some i =>
      obtain ⟨pre, suf, hsplit, hlen⟩ := pyIndex_some_split hidx
      have hval : hs' = pyInsert hs (i + 1) "Duration" := by
        simpa [processHeaders, hidx] using hok.symm
      subst hval
      constructor
      · exact mem_pyInsert_of_mem _ _ (by simp [hsplit])
      · exact mem_pyInsert_self _ _ _

/-- Witness for C10 at a concrete header row lacking "Song Name". -/
theorem khalbum_header_requires_song_name_witness :
    ∃ msg, processHeaders ["#", "Title"] = .error msg :=
  (khalbum_header_requires_song_name ["#", "Title"]).1 (by decide)

/-- Claim C2 counterexample: for the header row
["#", "Song Name", "MP3", "FLAC"], the code's available formats are
["mp3"], not the claimed ["mp3", "flac"] — the slice
`headers[index('Duration')+1:-1]` always discards the last column, so
"FLAC" is dropped. -/
theorem get_available_formats_cex :
    processHeaders ["#", "Song Name", "MP3", "FLAC"] =
      .ok ["#", "Song Name", "Duration", "MP3", "FLAC"] ∧
    get_available_formats ["#", "Song Name", "Duration", "MP3", "FLAC"] =
      .ok ["mp3"] ∧
    get_available_formats ["#", "Song Name", "Duration", "MP3", "FLAC"] ≠
      .ok ["mp3", "flac"] := by
  refine ⟨rfl, rfl, ?_⟩
  intro h
  have : (["mp3"] : List String) = ["mp3", "flac"] := by
    have h' : (Except.ok ["mp3"] : Except String (List String)) = .ok ["mp3", "flac"] := by
      rw [show (Except.ok ["mp3"] : Except String (List String)) =
        get_available_formats ["#", "Song Name", "Duration", "MP3", "FLAC"] from rfl, h]
    injection h'
  simp at this

/-- Claim C2 amended (proved): for the header row
["#", "Song Name", "MP3", "FLAC"], the extracted available formats are
exactly ["mp3"] — the header labels strictly between the synthesized
"Duration" header and the single trailing column, lowercased, in header
order. -/
theorem get_available_formats_header_scenario :
    ∃ hs', processHeaders ["#", "Song Name", "MP3", "FLAC"] = .ok hs' ∧
      get_available_formats hs' = .ok ["mp3"] :=
  ⟨["#", "Song Name", "Duration", "MP3", "FLAC"], rfl, rfl⟩

/-- Claim C4 counterexample: the comparison the code performs is Python
`==` on the raw extension, which is case-sensitive, not the claimed
case-insensitive match.  For links ["a.MP3"] and format "mp3" a candidate
matches case-insensitively, yet the code raises the format-unavailable
error. -/
theorem khsong_download_case_sensitive_cex :
    pyLower (extAfterDot "a.MP3") = "mp3" ∧
    KHSong.download ["a.MP3"] "mp3" "TrackA" =
      .error (pyUpper "mp3" ++ " format not found for " ++ "TrackA" ++ " song") :=
  ⟨rfl, rfl⟩

/-- Claim C4 amended (proved): link resolution returns a candidate whose
file-extension suffix — the part after the last dot of the path's final
component, as `os.path.splitext` computes it — equals the desired format
under case-SENSITIVE comparison, and fails with the format-unavailable
error carrying the uppercased requested format and the track's display name
exactly when no candidate's extension equals it. -/
theorem khsong_download_format_filtering (links : List String) (fmt songName : String) :
    (∀ link, KHSong.download links fmt songName = .ok link →
      link ∈ links ∧ extAfterDot link = fmt) ∧
    ((∃ link ∈ links, extAfterDot link = fmt) →
      ∃ link, KHSong.download links fmt songName = .ok link) ∧
    ((∀ link ∈ links, extAfterDot link ≠ fmt) →
      KHSong.download links fmt songName =
        .error (pyUpper fmt ++ " format not found for " ++ songName ++ " song")) := by
  refine ⟨?_, ?_, ?_⟩
  · intro link hok
    cases hfind : links.find? (fun l => extAfterDot l == fmt) with
    | none => simp [KHSong.download, hfind] at hok
    | some l =>
      have hl : l = link := by simpa [KHSong.download, hfind] using hok
      subst hl
      exact ⟨List.mem_of_find?_eq_some hfind, by simpa using List.find?_some hfind⟩
  · rintro ⟨link, hmem, hext⟩
    cases hfind : links.find? (fun l => extAfterDot l == fmt) with
    | none =>
      have := List.find?_eq_none.mp hfind link hmem
      simp [hext] at this
    | some l => exact ⟨l, by simp [KHSong.download, hfind]⟩
  · intro hall
    have hfind : links.find? (fun l => extAfterDot l == fmt) = none :=
      List.find?_eq_none.mpr (fun x hx => by simpa using hall x hx)
    simp [KHSong.download, hfind]

/-- Witness for C4 at the claim's example: links ["a.mp3", "b.flac"] with
format "ogg" fail with the format-unavailable error. -/
theorem khsong_download_format_filtering_witness :
    KHSong.download ["a.mp3", "b.flac"] "ogg" "TrackA" =
      .error (pyUpper "ogg" ++ " format not found for " ++ "TrackA" ++ " song") :=
  (khsong_download_format_filtering ["a.mp3", "b.flac"] "ogg" "TrackA").2.2 (by decide)

/-! ## The download orchestrator: helper lemmas -/

lemma truthy_none : truthy none = false := rfl

lemma truthy_some_zero : truthy (some 0) = false := rfl

lemma truthy_some_of_ne {v : Int} (h : v ≠ 0) : truthy (some v) = true := by
  simp [truthy, h]

lemma trackLoop_cons (start stop : Option Int) (total idx : Nat) (rest : List Nat) :
    trackLoop start stop total (idx :: rest) =
      if truthy start = true ∧ (idx : Int) + 1 < start.getD 0 then
        trackLoop start stop total rest
      else if truthy stop = true ∧ (idx : Int) + 1 > stop.getD 0 then
        []
      else
        Event.track (idx + 1) (if truthy stop then stop.getD 0 else (total : Int)) ::
          trackLoop start stop total rest := rfl

lemma inWindow_false_left {start stop : Option Int} {p : Nat}
    (hs : truthy start = true) (h : (p : Int) < start.getD 0) :
    inWindow start stop p = false := by
  simp only [inWindow, hs, Bool.not_true, Bool.false_or]
  rw [decide_eq_false (not_le.mpr h), Bool.false_and]

lemma inWindow_false_right {start stop : Option Int} {p : Nat}
    (ht : truthy stop = true) (h : stop.getD 0 < (p : Int)) :
    inWindow start stop p = false := by
  simp only [inWindow, ht, Bool.not_true, Bool.false_or]
  rw [decide_eq_false (not_le.mpr h), Bool.and_false]

lemma inWindow_eq_true {start stop : Option Int} {p : Nat}
    (h1 : truthy start = true → start.getD 0 ≤ (p : Int))
    (h2 : truthy stop = true → (p : Int) ≤ stop.getD 0) :
    inWindow start stop p = true := by
  simp only [inWindow, Bool.and_eq_true, Bool.or_eq_true, Bool.not_eq_true',
    decide_eq_true_eq]
  constructor
  · cases hs : truthy start
    · exact .inl rfl
    · exact .inr (h1 hs)
  · cases ht : truthy stop
    · exact .inl rfl
    · exact .inr (h2 ht)

lemma trackPositions_cons_track (p : Nat) (d : Int) (l : List Event) :
    trackPositions (Event.track p d :: l) = p :: trackPositions l := rfl

lemma trackLoop_positions (start stop : Option Int) (total : Nat) :
    ∀ (m a : Nat),
      trackPositions (trackLoop start stop total (List.range' a m)) =
        ((List.range' a m).map (· + 1)).filter (inWindow start stop) := by
  intro m
  induction m with
  | zero => intro a; rfl
  | succ m ih =>
    intro a
    rw [List.range'_succ]
    have hcast : ((a + 1 : Nat) : Int) = (a : Int) + 1 := by push_cast; ring
    by_cases h1 : truthy start = true ∧ (a : Int) + 1 < start.getD 0
    · have hw : inWindow start stop (a + 1) = false :=
        inWindow_false_left h1.1 (by rw [hcast]; exact h1.2)
      rw [trackLoop_cons, if_pos h1, List.map_cons, List.filter_cons,
        if_neg (by simp [hw]), ih]
    · by_cases h2 : truthy stop = true ∧ (a : Int) + 1 > stop.getD 0
      · rw [trackLoop_cons, if_neg h1, if_pos h2]
        have hnil : trackPositions ([] : List Event) = [] := rfl
        rw [hnil]
        symm
        rw [List.filter_eq_nil_iff]
        intro x hx
        obtain ⟨q, hq, rfl⟩ := List.mem_map.mp hx
        have hqa : a ≤ q := by
          rcases List.mem_cons.mp hq with h | hq'
          · exact h.ge
          · exact le_of_lt (Nat.lt_of_lt_of_le (Nat.lt_succ_self a)
              (List.mem_range'_1.mp hq').1)
        have hlt : stop.getD 0 < ((q + 1 : Nat) : Int) := by
          have : (a : Int) ≤ (q : Int) := Int.ofNat_le.mpr hqa
          push_cast
          omega
        simp [inWindow_false_right h2.1 hlt]
      · push_neg at h1 h2
        have hw : inWindow start stop (a + 1) = true :=
          inWindow_eq_true
            (fun hs => by rw [hcast]; exact h1 hs)
            (fun ht => by rw [hcast]; exact h2 ht)
        rw [trackLoop_cons, if_neg (by push_neg; exact h1),
          if_neg (by push_neg; exact h2), trackPositions_cons_track,
          List.map_cons, List.filter_cons, if_pos (by simp [hw]), ih]

lemma trackPositions_trackLoop_range (start stop : Option Int) (n : Nat) :
    trackPositions (trackLoop start stop n (List.range n)) =
      ((List.range n).map (· + 1)).filter (inWindow start stop) := by
  rw [List.range_eq_range']
  exact trackLoop_positions start stop n n 0

lemma trackLoop_all_track (start stop : Option Int) (total : Nat) :
    ∀ l, ∀ e ∈ trackLoop start stop total l, e.isTrack = true := by
  intro l
  induction l with
  | nil => intro e he; cases he
  | cons idx rest ih =>
    intro e he
    rw [trackLoop_cons] at he
    by_cases h1 : truthy start = true ∧ (idx : Int) + 1 < start.getD 0
    · rw [if_pos h1] at he
      exact ih e he
    · rw [if_neg h1] at he
      by_cases h2 : truthy stop = true ∧ (idx : Int) + 1 > stop.getD 0
      · rw [if_pos h2] at he
        cases he
      · rw [if_neg h2] at he
        rcases List.mem_cons.mp he with rfl | h
        · rfl
        · exact ih e h

lemma trackLoop_falsy (start stop : Option Int) (total : Nat)
    (hs : truthy start = false) (ht : truthy stop = false) :
    ∀ l, trackLoop start stop total l =
      l.map (fun i => Event.track (i + 1) (total : Int)) := by
  intro l
  induction l with
  | nil => rfl
  | cons idx rest ih =>
    rw [trackLoop_cons,
      if_neg (show ¬(truthy start = true ∧ (idx : Int) + 1 < start.getD 0) by simp [hs]),
      if_neg (show ¬(truthy stop = true ∧ (idx : Int) + 1 > stop.getD 0) by simp [ht]),
      ih]
    simp [ht]

lemma trackLoop_start_falsy_congr (s s' stop : Option Int) (total : Nat)
    (hs : truthy s = false) (hs' : truthy s' = false) :
    ∀ l, trackLoop s stop total l = trackLoop s' stop total l := by
  intro l
  induction l with
  | nil => rfl
  | cons idx rest ih =>
    rw [trackLoop_cons, trackLoop_cons,
      if_neg (show ¬(truthy s = true ∧ (idx : Int) + 1 < s.getD 0) by simp [hs]),
      if_neg (show ¬(truthy s' = true ∧ (idx : Int) + 1 < s'.getD 0) by simp [hs'])]
    by_cases h2 : truthy stop = true ∧ (idx : Int) + 1 > stop.getD 0
    · rw [if_pos h2, if_pos h2]
    · rw [if_neg h2, if_neg h2, ih]

lemma trackLoop_stop_falsy_congr (start t t' : Option Int) (total : Nat)
    (ht : truthy t = false) (ht' : truthy t' = false) :
    ∀ l, trackLoop start t total l = trackLoop start t' total l := by
  intro l
  induction l with
  | nil => rfl
  | cons idx rest ih =>
    rw [trackLoop_cons, trackLoop_cons]
    by_cases h1 : truthy start = true ∧ (idx : Int) + 1 < start.getD 0
    · rw [if_pos h1, if_pos h1, ih]
    · rw [if_neg h1, if_neg h1,
        if_neg (show ¬(truthy t = true ∧ (idx : Int) + 1 > t.getD 0) by simp [ht]),
        if_neg (show ¬(truthy t' = true ∧ (idx : Int) + 1 > t'.getD 0) by simp [ht']),
        ih]
      have hdt : (if truthy t = true then t.getD 0 else (total : Int)) = (total : Int) := by
        rw [ht]
        simp
      have hdt' : (if truthy t' = true then t'.getD 0 else (total : Int)) = (total : Int) := by
        rw [ht']
        simp
      rw [hdt, hdt']

lemma download_eq_ok_of_valid (numCovers numSongs : Nat) (start stop : Option Int)
    (dl : Bool)
    (h1 : ¬(truthy start = true ∧ (start.getD 0 < 0 ∨ start.getD 0 > (numSongs : Int))))
    (h2 : ¬(truthy stop = true ∧ (stop.getD 0 < 0 ∨ stop.getD 0 > (numSongs : Int))))
    (h3 : ¬(truthy start = true ∧ truthy stop = true ∧ start.getD 0 > stop.getD 0)) :
    KHAlbum.download true numCovers numSongs start stop dl =
      .ok ((if dl then coverEvents numCovers else []) ++
        trackLoop start stop numSongs (List.range numSongs)) := by
  unfold KHAlbum.download
  rw [if_neg (by simp), if_neg h1, if_neg h2, if_neg h3]

lemma download_unfold_falsy_start (numCovers numSongs : Nat)
    (start stop : Option Int) (dl : Bool) (hs : truthy start = false) :
    KHAlbum.download true numCovers numSongs start stop dl =
      if truthy stop = true ∧ (stop.getD 0 < 0 ∨ stop.getD 0 > (numSongs : Int)) then
        .error (.invalidEnd (stop.getD 0))
      else
        .ok ((if dl then coverEvents numCovers else []) ++
          trackLoop start stop numSongs (List.range numSongs)) := by
  unfold KHAlbum.download
  rw [if_neg (show ¬((!true) = true) by simp),
    if_neg (show ¬(truthy start = true ∧
      (start.getD 0 < 0 ∨ start.getD 0 > (numSongs : Int))) by simp [hs]),
    if_neg (show ¬(truthy start = true ∧ truthy stop = true ∧
      start.getD 0 > stop.getD 0) by simp [hs])]

lemma download_unfold_falsy_stop (numCovers numSongs : Nat)
    (start stop : Option Int) (dl : Bool) (ht : truthy stop = false) :
    KHAlbum.download true numCovers numSongs start stop dl =
      if truthy start = true ∧ (start.getD 0 < 0 ∨ start.getD 0 > (numSongs : Int)) then
        .error (.invalidStart (start.getD 0))
      else
        .ok ((if dl then coverEvents numCovers else []) ++
          trackLoop start stop numSongs (List.range numSongs)) := by
  unfold KHAlbum.download
  rw [if_neg (show ¬((!true) = true) by simp),
    if_neg (show ¬(truthy stop = true ∧
      (stop.getD 0 < 0 ∨ stop.getD 0 > (numSongs : Int))) by simp [ht]),
    if_neg (show ¬(truthy start = true ∧ truthy stop = true ∧
      start.getD 0 > stop.getD 0) by simp [ht])]

lemma trackEvents_coverEvents (numCovers : Nat) :
    trackEvents (coverEvents numCovers) = [] := by
  unfold trackEvents coverEvents
  rw [List.filter_eq_nil_iff]
  intro e he
  obtain ⟨i, _, rfl⟩ := List.mem_map.mp he
  simp [Event.isTrack]

lemma trackEvents_trackLoop (start stop : Option Int) (total : Nat) (l : List Nat) :
    trackEvents (trackLoop start stop total l) = trackLoop start stop total l := by
  unfold trackEvents
  rw [List.filter_eq_self]
  exact trackLoop_all_track start stop total l

/-- Claim C1 counterexample: the claim requires `start = 0` to raise a range
error with zero network requests, but `start = 0` is falsy in Python, so the
validation at lines 489-496 never fires and the whole (one-track) album is
downloaded. -/
theorem khalbum_download_start_zero_cex :
    KHAlbum.download true 0 1 (some 0) none false = .ok [Event.track 1 1] := rfl

/-- Claim C1 amended (proved): with `start` or `end` present and NONZERO but
violating the range rules — a bound not in [1, len(tracks)], or both present
(and nonzero) with start > end — `KHAlbum.download` raises a range error
before any transfer and performs zero downloads (the error carries no event);
a zero bound is instead treated as unset. -/
theorem khalbum_download_range_validation (numCovers numSongs : Nat)
    (start stop : Option Int) (dl : Bool)
    (h : (truthy start = true ∧
            (start.getD 0 < 1 ∨ start.getD 0 > (numSongs : Int))) ∨
         (truthy stop = true ∧
            (stop.getD 0 < 1 ∨ stop.getD 0 > (numSongs : Int))) ∨
         (truthy start = true ∧ truthy stop = true ∧
            start.getD 0 > stop.getD 0)) :
    ∃ e, KHAlbum.download true numCovers numSongs start stop dl = .error e ∧
      e.isRangeErr = true := by
  have truthy_ne : ∀ (o : Option Int), truthy o = true → o.getD 0 ≠ 0 := by
    intro o ho
    cases o with
    | none => simp [truthy] at ho
    | some v => simpa [truthy] using ho
  unfold KHAlbum.download
  rw [if_neg (by simp)]
  by_cases c1 : truthy start = true ∧ (start.getD 0 < 0 ∨ start.getD 0 > (numSongs : Int))
  · rw [if_pos c1]
    exact ⟨_, rfl, rfl⟩
  · rw [if_neg c1]
    by_cases c2 : truthy stop = true ∧ (stop.getD 0 < 0 ∨ stop.getD 0 > (numSongs : Int))
    · rw [if_pos c2]
      exact ⟨_, rfl, rfl⟩
    · rw [if_neg c2]
      by_cases c3 : truthy start = true ∧ truthy stop = true ∧ start.getD 0 > stop.getD 0
      · rw [if_pos c3]
        exact ⟨_, rfl, rfl⟩
      · exfalso
        rcases h with ⟨hs, hv⟩ | ⟨ht, hv⟩ | h3
        · have hne := truthy_ne start hs
          exact c1 ⟨hs, by omega⟩
        · have hne := truthy_ne stop ht
          exact c2 ⟨ht, by omega⟩
        · exact c3 h3

/-- Witness for C1 (amended) at the claim's example start=3, end=2. -/
theorem khalbum_download_range_validation_witness :
    ∃ e, KHAlbum.download true 0 3 (some 3) (some 2) false = .error e ∧
      e.isRangeErr = true :=
  khalbum_download_range_validation 0 3 (some 3) (some 2) false (by decide)

/-- Claim C5 (confirmed): with valid bounds, `KHAlbum.download` downloads
exactly the tracks whose 1-based position lies in [start, end] (unset bounds
unbounded), in extracted order; positions outside the window produce no
download event. -/
theorem khalbum_download_window (numCovers numSongs : Nat) (start stop : Option Int)
    (hs : ∀ v, start = some v → 1 ≤ v ∧ v ≤ (numSongs : Int))
    (ht : ∀ v, stop = some v → 1 ≤ v ∧ v ≤ (numSongs : Int))
    (hse : ∀ v w, start = some v → stop = some w → v ≤ w) :
    ∃ evs, KHAlbum.download true numCovers numSongs start stop false = .ok evs ∧
      trackPositions evs =
        ((List.range numSongs).map (· + 1)).filter (specWindow start stop) := by
  have h1 : ¬(truthy start = true ∧
      (start.getD 0 < 0 ∨ start.getD 0 > (numSongs : Int))) := by
    cases start with
    | none => simp [truthy]
    | some v =>
      obtain ⟨hv1, hv2⟩ := hs v rfl
      intro hc
      rw [Option.getD_some] at hc
      omega
  have h2 : ¬(truthy stop = true ∧
      (stop.getD 0 < 0 ∨ stop.getD 0 > (numSongs : Int))) := by
    cases stop with
    | none => simp [truthy]
    | some v =>
      obtain ⟨hv1, hv2⟩ := ht v rfl
      intro hc
      rw [Option.getD_some] at hc
      omega
  have h3 : ¬(truthy start = true ∧ truthy stop = true ∧
      start.getD 0 > stop.getD 0) := by
    cases start with
    | none => simp [truthy]
    | some v =>
      cases stop with
      | none => simp [truthy]
      | some w =>
        have hvw := hse v w rfl rfl
        intro hc
        rw [Option.getD_some, Option.getD_some] at hc
        omega
  refine ⟨_, download_eq_ok_of_valid numCovers numSongs start stop false h1 h2 h3, ?_⟩
  rw [if_neg (by simp), List.nil_append, trackPositions_trackLoop_range]
  apply List.filter_congr
  intro p _
  unfold inWindow specWindow
  cases start with
  | none => cases stop with
    | none => simp [truthy]
    | some w =>
      have hw0 : w ≠ 0 := by have := ht w rfl; omega
      simp [truthy_none, truthy_some_of_ne hw0]
  | some v =>
    have hv0 : v ≠ 0 := by have := hs v rfl; omega
    cases stop with
    | none => simp [truthy_none, truthy_some_of_ne hv0]
    | some w =>
      have hw0 : w ≠ 0 := by have := ht w rfl; omega
      simp [truthy_some_of_ne hv0, truthy_some_of_ne hw0]

/-- Witness for C5 at the claim's example: start=2, end=4 over 5 tracks. -/
theorem khalbum_download_window_witness :
    ∃ evs, KHAlbum.download true 0 5 (some 2) (some 4) false = .ok evs ∧
      trackPositions evs =
        ((List.range 5).map (· + 1)).filter (specWindow (some 2) (some 4)) :=
  khalbum_download_window 0 5 (some 2) (some 4)
    (by intro v hv; injection hv with hv; subst hv; decide)
    (by intro v hv; injection hv with hv; subst hv; decide)
    (by intro v w hv hw; injection hv with hv; injection hw with hw; subst hv; subst hw; decide)

/-- Claim C7 (confirmed): with covers requested and bounds passing
validation, every cover is downloaded — the range bounds never restrict the
cover loop — all cover downloads appear in the trace before any track
download, and tracks are attempted strictly in tracklist order. -/
theorem khalbum_download_covers_first (numCovers numSongs : Nat)
    (start stop : Option Int)
    (hs : ∀ v, start = some v → 1 ≤ v ∧ v ≤ (numSongs : Int))
    (ht : ∀ v, stop = some v → 1 ≤ v ∧ v ≤ (numSongs : Int))
    (hse : ∀ v w, start = some v → stop = some w → v ≤ w) :
    ∃ tr, KHAlbum.download true numCovers numSongs start stop true =
        .ok (coverEvents numCovers ++ tr) ∧
      (∀ i, 1 ≤ i → i ≤ numCovers →
        Event.cover i numCovers ∈ coverEvents numCovers ++ tr) ∧
      (∀ e ∈ tr, e.isTrack = true) ∧
      List.Pairwise (· < ·) (trackPositions tr) := by
  have h1 : ¬(truthy start = true ∧
      (start.getD 0 < 0 ∨ start.getD 0 > (numSongs : Int))) := by
    cases start with
    | none => simp [truthy]
    | some v =>
      obtain ⟨hv1, hv2⟩ := hs v rfl
      intro hc
      rw [Option.getD_some] at hc
      omega
  have h2 : ¬(truthy stop = true ∧
      (stop.getD 0 < 0 ∨ stop.getD 0 > (numSongs : Int))) := by
    cases stop with
    | none => simp [truthy]
    | some v =>
      obtain ⟨hv1, hv2⟩ := ht v rfl
      intro hc
      rw [Option.getD_some] at hc
      omega
  have h3 : ¬(truthy start = true ∧ truthy stop = true ∧
      start.getD 0 > stop.getD 0) := by
    cases start with
    | none => simp [truthy]
    | some v =>
      cases stop with
      | none => simp [truthy]
      | some w =>
        have hvw := hse v w rfl rfl
        intro hc
        rw [Option.getD_some, Option.getD_some] at hc
        omega
  refine ⟨trackLoop start stop numSongs (List.range numSongs), ?_, ?_, ?_, ?_⟩
  · rw [download_eq_ok_of_valid numCovers numSongs start stop true h1 h2 h3,
      if_pos rfl]
  · intro i hi1 hi2
    refine List.mem_append.mpr (.inl (List.mem_map.mpr ⟨i - 1, ?_, ?_⟩))
    · exact List.mem_range.mpr (by omega)
    · have : i - 1 + 1 = i := by omega
      rw [this]
  · exact trackLoop_all_track start stop numSongs (List.range numSongs)
  · rw [trackPositions_trackLoop_range]
    refine List.Pairwise.sublist (List.filter_sublist _) ?_
    rw [List.pairwise_map]
    exact (List.pairwise_lt_range numSongs).imp (fun h => by omega)

/-- Witness for C7 at concrete data: two covers, three tracks, start=2. -/
theorem khalbum_download_covers_first_witness :
    ∃ tr, KHAlbum.download true 2 3 (some 2) none true =
        .ok (coverEvents 2 ++ tr) ∧
      (∀ i, 1 ≤ i → i ≤ 2 → Event.cover i 2 ∈ coverEvents 2 ++ tr) ∧
      (∀ e ∈ tr, e.isTrack = true) ∧
      List.Pairwise (· < ·) (trackPositions tr) :=
  khalbum_download_covers_first 2 3 (some 2) none
    (by intro v hv; injection hv with hv; subst hv; decide)
    (by intro v hv; cases hv)
    (by intro v w _ hw; cases hw)

/-- Claim C9 (confirmed): a zero `start` or `end` bound is falsy in Python,
so it raises no error and behaves exactly as an unset bound: the validation
and the skip/break logic ignore it, the full track list is downloaded, and
every track's printed progress denominator is the total track count. -/
theorem khalbum_download_zero_bounds (numCovers numSongs : Nat)
    (start stop : Option Int) (dl : Bool) :
    KHAlbum.download true numCovers numSongs (some 0) stop dl =
      KHAlbum.download true numCovers numSongs none stop dl ∧
    KHAlbum.download true numCovers numSongs start (some 0) dl =
      KHAlbum.download true numCovers numSongs start none dl ∧
    ∃ evs, KHAlbum.download true numCovers numSongs (some 0) (some 0) dl = .ok evs ∧
      trackEvents evs =
        (List.range numSongs).map (fun i => Event.track (i + 1) (numSongs : Int)) := by
  refine ⟨?_, ?_, ?_⟩
  · rw [download_unfold_falsy_start numCovers numSongs (some 0) stop dl rfl,
      download_unfold_falsy_start numCovers numSongs none stop dl rfl]
    by_cases c2 : truthy stop = true ∧ (stop.getD 0 < 0 ∨ stop.getD 0 > (numSongs : Int))
    · rw [if_pos c2, if_pos c2]
    · rw [if_neg c2, if_neg c2,
        trackLoop_start_falsy_congr (some 0) none stop numSongs rfl rfl]
  · rw [download_unfold_falsy_stop numCovers numSongs start (some 0) dl rfl,
      download_unfold_falsy_stop numCovers numSongs start none dl rfl]
    by_cases c1 : truthy start = true ∧
        (start.getD 0 < 0 ∨ start.getD 0 > (numSongs : Int))
    · rw [if_pos c1, if_pos c1]
    · rw [if_neg c1, if_neg c1,
        trackLoop_stop_falsy_congr start (some 0) none numSongs rfl rfl]
  · refine ⟨_, download_eq_ok_of_valid numCovers numSongs (some 0) (some 0) dl
      (by simp [truthy]) (by simp [truthy]) (by simp [truthy]), ?_⟩
    unfold trackEvents
    rw [List.filter_append]
    have hc : List.filter Event.isTrack (if dl then coverEvents numCovers else []) = [] := by
      cases dl
      · rfl
      · simpa [trackEvents] using trackEvents_coverEvents numCovers
    rw [hc, List.nil_append]
    have ha := trackEvents_trackLoop (some 0) (some 0) numSongs (List.range numSongs)
    unfold trackEvents at ha
    rw [ha, trackLoop_falsy (some 0) (some 0) numSongs rfl rfl]

/-! ## Track extraction: row count and order -/

lemma mapExcept_ok {α β ε : Type} (f : α → Except ε β) :
    ∀ (l : List α), (∀ x ∈ l, ∃ y, f x = .ok y) →
      ∃ ys, mapExcept f l = .ok ys ∧ ys.length = l.length ∧
        ∀ i (hi : i < l.length) (hj : i < ys.length),
          f (l.get ⟨i, hi⟩) = .ok (ys.get ⟨i, hj⟩) := by
  intro l
  induction l with
  | nil =>
    intro _
    exact ⟨[], rfl, rfl, fun i hi _ => absurd hi (by simp)⟩
  | cons x xs ih =>
    intro h
    obtain ⟨y, hy⟩ := h x (List.mem_cons_self x xs)
    obtain ⟨ys, hys, hlen, hidx⟩ := ih (fun z hz => h z (List.mem_cons_of_mem x hz))
    refine ⟨y :: ys, ?_, by simp [hlen], ?_⟩
    · simp only [mapExcept]
      rw [hy, hys]
      rfl
    · intro i hi hj
      cases i with
      | zero => exact hy
      | succ n => exact hidx n (Nat.lt_of_succ_lt_succ hi) (Nat.lt_of_succ_lt_succ hj)

/-- Claim C6 (confirmed): for a track table whose rows are a header row, N
data rows and a footer row, and whose data rows each build a song record
(valid HTML), `get_songlist` returns exactly N records, in row order; in
particular zero data rows yield an empty list, not an error. -/
theorem get_songlist_row_count (joinUrl : String → String) (headers : List String)
    (hdrRow ftrRow : Row) (data : List Row)
    (h : ∀ r ∈ data, ∃ s, mkSong joinUrl headers r = .ok s) :
    ∃ songs, get_songlist joinUrl headers (hdrRow :: data ++ [ftrRow]) = .ok songs ∧
      songs.length = data.length ∧
      ∀ i (hi : i < data.length) (hj : i < songs.length),
        mkSong joinUrl headers (data.get ⟨i, hi⟩) = .ok (songs.get ⟨i, hj⟩) := by
  have hrows : (((hdrRow :: data) ++ [ftrRow]).drop 1).dropLast = data := by
    simp
  simp only [get_songlist, hrows]
  exact mapExcept_ok (mkSong joinUrl headers) data h

/-- Witness for C6 at a one-row table (and, through N = 1 vs the header and
footer rows, a concrete check of count and order). -/
theorem get_songlist_row_count_witness :
    ∃ songs,
      get_songlist id ["#", "Song Name"]
        ((⟨none, []⟩ : Row) ::
          [(⟨some "https://downloads.khinsider.com/game-soundtracks/album/x",
             ["1", "A"]⟩ : Row)] ++ [(⟨none, []⟩ : Row)]) = .ok songs ∧
      songs.length =
        [(⟨some "https://downloads.khinsider.com/game-soundtracks/album/x",
           ["1", "A"]⟩ : Row)].length ∧
      ∀ i (hi : i <
          [(⟨some "https://downloads.khinsider.com/game-soundtracks/album/x",
             ["1", "A"]⟩ : Row)].length) (hj : i < songs.length),
        mkSong id ["#", "Song Name"]
            ([(⟨some "https://downloads.khinsider.com/game-soundtracks/album/x",
               ["1", "A"]⟩ : Row)].get ⟨i, hi⟩) =
          .ok (songs.get ⟨i, hj⟩) :=
  get_songlist_row_count id ["#", "Song Name"] ⟨none, []⟩ ⟨none, []⟩
    [⟨some "https://downloads.khinsider.com/game-soundtracks/album/x", ["1", "A"]⟩]
    (by
      intro r hr
      rw [List.mem_singleton] at hr
      subst hr
      exact ⟨⟨"https://downloads.khinsider.com/game-soundtracks/album/x",
        [("#", "1"), ("song name", "A")]⟩, rfl⟩)

/-! ## Progress accounting -/

lemma reportOfCount_eq_min (count blockSize totalSize : Nat) :
    reportOfCount count blockSize totalSize = min (count * blockSize) totalSize := by
  unfold reportOfCount
  rcases Nat.lt_or_ge (count * blockSize) totalSize with h | h
  · rw [if_pos h, Nat.min_eq_left (le_of_lt h)]
  · rw [if_neg (not_lt.mpr h), Nat.min_eq_right h]

lemma numChunks_mul_ge (totalSize chunkSize : Nat) (hC : 0 < chunkSize) :
    totalSize ≤ numChunks totalSize chunkSize * chunkSize := by
  unfold numChunks
  rw [Nat.mul_comm]
  have h := Nat.div_add_mod (totalSize + chunkSize - 1) chunkSize
  have h2 : (totalSize + chunkSize - 1) % chunkSize < chunkSize := Nat.mod_lt _ hC
  omega

/-- Claim C8 (confirmed): for a transfer of declared total size S read in
chunks of size C > 0, the progress callback is invoked once per chunk and a
final time, the displayed byte counts are monotonically non-decreasing, and
the final invocation reports exactly S. -/
theorem download_file_progress (totalSize chunkSize : Nat) (hC : 0 < chunkSize) :
    List.Chain' (· ≤ ·) (progressReports totalSize chunkSize) ∧
    (progressReports totalSize chunkSize).getLast? = some totalSize := by
  have hge := numChunks_mul_ge totalSize chunkSize hC
  have hS0 : numChunks totalSize chunkSize = 0 → totalSize = 0 := by
    intro h0
    rw [h0] at hge
    omega
  have hlast : reportOfCount (numChunks totalSize chunkSize - 1 + 1) chunkSize totalSize
      = totalSize := by
    rcases Nat.eq_zero_or_pos (numChunks totalSize chunkSize) with h0 | hpos
    · rw [reportOfCount_eq_min, hS0 h0]
      simp
    · have h1 : numChunks totalSize chunkSize - 1 + 1 = numChunks totalSize chunkSize := by
        omega
      rw [reportOfCount_eq_min, h1]
      exact Nat.min_eq_right hge
  constructor
  · have hrep : progressReports totalSize chunkSize =
        (List.range (numChunks totalSize chunkSize + 1)).map
          (fun i => min (i * chunkSize) totalSize) := by
      unfold progressReports
      rcases Nat.eq_zero_or_pos (numChunks totalSize chunkSize) with h0 | hpos
      · rw [h0, hS0 h0]
        simp [reportOfCount_eq_min]
      · have h1 : numChunks totalSize chunkSize - 1 + 1 = numChunks totalSize chunkSize := by
          omega
        rw [h1, List.range_succ, List.map_append]
        simp [reportOfCount_eq_min]
    rw [hrep, List.chain'_map]
    exact (List.chain'_range_succ _ _).mpr
      (fun i _ => min_le_min (Nat.mul_le_mul_right _ (Nat.le_succ i)) (le_refl totalSize))
  · unfold progressReports
    rw [List.getLast?_concat, hlast]

/-- Witness for C8 at S=10 bytes, C=4 bytes per chunk (reports 0,4,8,10). -/
theorem download_file_progress_witness :
    0 < 4 ∧
      (List.Chain' (· ≤ ·) (progressReports 10 4) ∧
        (progressReports 10 4).getLast? = some 10) :=
  ⟨by decide, download_file_progress 10 4 (by decide)⟩

end Khscraper
